import Mathlib

/-!
Shallow embedding of `spatial_image_multiscale.py` (spatial-image-multiscale 0.3.0).

A `SpatialImage` / xarray `DataArray` is modelled as a labelled N-dimensional
array: an ordered list of dimension labels, one extent, one coordinate list and
one optional unit annotation per dimension (all aligned with the dimension
order), and the element data as a total function from index vectors (lists of
per-dimension indices, aligned with the dimension order) to rationals.
Rationals stand in for Python floats: the claims under study are about which
values are selected and combined, not about rounding.

Dask chunking (`DataArray.chunk`) changes only the storage layout, never the
shape, coordinates or element values, so it is modelled as the identity on the
value-level array.
-/

structure DataArray where
  name : String
  dims : List String
  sizes : List Nat
  coords : List (List ℚ)
  units : List (Option String)
  data : List Nat → ℚ

/-- `_spatial_dims = {"x", "y", "z"}` from line 17 of the source. -/
def _spatial_dims : List String := ["x", "y", "z"]

/-- One element of the `scale_factors` sequence: either a plain `int`, or a
`Dict[str, int]` mapping axis labels to factors. -/
inductive ScaleFactor where
  | uniform (f : Nat)
  | perAxis (m : List (String × Nat))

/-- Factor applied along dimension `d` by the per-axis mapping `dimMap`:
the mapped factor when `d` is a key, and `1` (axis untouched by
`xarray.DataArray.coarsen`) when it is not. -/
def factorOf (dimMap : List (String × Nat)) (d : String) : Nat :=
  match dimMap with
  | [] => 1
  | (k, f) :: rest => if k = d then f else factorOf rest d

/-- All offset vectors inside one aggregation block: the cartesian product of
`List.range f` over the per-dimension window widths `fs`. -/
def offsets : List Nat → List (List Nat)
  | [] => [[]]
  | f :: fs => ((List.range f).map (fun j => (offsets fs).map (fun os => j :: os))).flatten

/-- The input index vector read by one output cell: per dimension, with output
index `i`, window width `f`, trimmed excess `e` and in-window offset `o`, the
input index is `e + i * f + o`. -/
def inIndex : List Nat → List Nat → List Nat → List Nat → List Nat
  | i :: is, f :: fs, e :: es, o :: os => (e + i * f + o) :: inIndex is fs es os
  | _, _, _, _ => []

/-- Block means of a coordinate list under window width `f`, with
`boundary="trim"`, `side="right"`: xarray drops the `length % f` excess cells
from the leading edge so that complete windows align with the trailing edge
(`Variable.coarsen_reshape` slices `[size % window :]` for `side="right"`). -/
def coarsenWindowMeans (f : Nat) (cs : List ℚ) : List ℚ :=
  (List.range (cs.length / f)).map (fun i =>
    (((List.range f).map (fun j => cs.getD (cs.length % f + i * f + j) 0)).sum) / (f : ℚ))

/-- Model of `DataArray.coarsen(dim=dimMap, boundary="trim", side="right").mean()`:
along each dimension with window width `f` the extent becomes `size / f`
(floor), the `size % f` excess cells are dropped from the leading edge
(`side="right"` aligns complete windows with the trailing edge), and each
output cell is the arithmetic mean of its block; coordinates are aggregated by
the same block means (xarray's default `coord_func="mean"`). Dimensions not
named in `dimMap` pass through with window width `1`. -/
def DataArray.coarsenMean (a : DataArray) (dimMap : List (String × Nat)) : DataArray :=
  let fs := a.dims.map (factorOf dimMap)
  let exs := List.zipWith (fun n f => n % f) a.sizes fs
  { name := a.name
    dims := a.dims
    sizes := List.zipWith (fun n f => n / f) a.sizes fs
    coords := List.zipWith (fun cs f => coarsenWindowMeans f cs) a.coords fs
    units := a.units
    data := fun idx =>
      ((offsets fs).map (fun os => a.data (inIndex idx fs exs os))).sum / ((fs.prod : ℚ)) }

/-- Value-level model of Dask re-chunking: identity on shape, coordinates and
values. -/
def DataArray.chunk (a : DataArray) : DataArray := a

/-- A single-variable `xarray.Dataset`, as produced by
`DataArray.to_dataset(name=...)`. -/
structure Dataset where
  varName : String
  arr : DataArray

/-- `DataArray.to_dataset(name=name)`. -/
def DataArray.to_dataset (a : DataArray) (name : String) : Dataset :=
  { varName := name, arr := a }

/-- One NGFF axis entry `{"name": ..., "type": ..., "unit"?: ...}`. -/
structure NgffAxis where
  name : String
  type : String
  unit : Option String

/-- The `coordinateTransformations` pair attached to each NGFF dataset entry. -/
structure CoordTransform where
  scale : List ℚ
  translation : List ℚ

/-- One entry of the NGFF `datasets` list. -/
structure NgffDataset where
  path : String
  coordinateTransformations : CoordTransform

/-- One per-variable NGFF multiscale record. -/
structure NgffMultiscale where
  version : String
  name : String
  axes : List NgffAxis
  datasets : List NgffDataset

/-- The root attributes document `{"multiscales": [...]}`. -/
structure NgffMetadata where
  multiscales : List NgffMultiscale

/-- The `MultiscaleSpatialImage` DataTree: a root node (named `multiscales`)
with one child per resolution level, each child holding one single-variable
dataset, plus the root's attributes mapping. -/
structure MultiscaleSpatialImage where
  name : String
  children : List (String × Dataset)
  attrs : Option NgffMetadata

/-- Resolution of one `scale_factors` element into the `dim` dict handed to
`coarsen` (source lines 186-189): a plain `int` becomes
`{dim: scale_factor for dim in _spatial_dims.intersection(image.dims)}`, and a
mapping is used as given. -/
def resolveDim (image : DataArray) (sf : ScaleFactor) : List (String × Nat) :=
  match sf with
  | .uniform f => (_spatial_dims.filter (fun d => decide (d ∈ image.dims))).map (fun d => (d, f))
  | .perAxis m => m

/-- Model of `to_multiscale(image, scale_factors)` (source lines 141-200).
The `chunks` computation and the unused `method` parameter are omitted:
chunking is value-irrelevant (see `DataArray.chunk`) and `method` is never
read by the source body. Note that `current_input` mirrors source line 184 and
is never reassigned inside the loop, exactly as in the source: every
`downscaled` level is computed from the original `image`. -/
def to_multiscale (image : DataArray) (scale_factors : List ScaleFactor) :
    MultiscaleSpatialImage :=
  let current_input := image
  let levels := scale_factors.enum.map (fun p =>
    let dim := resolveDim image p.2
    let downscaled := (current_input.coarsenMean dim).chunk
    (toString (p.1 + 1), downscaled.to_dataset image.name))
  { name := "multiscales"
    children := ("0", image.chunk.to_dataset image.name) :: levels
    attrs := none }

/-- Per-dimension scale entry (source lines 82-85): with at least two
coordinate values, `coords[1] - coords[0]`; otherwise `1.0`. -/
def scaleOf (cs : List ℚ) : ℚ :=
  if 1 < cs.length then cs.getD 1 0 - cs.getD 0 0 else 1

/-- Per-dimension translation entry (source lines 86-89): with at least one
coordinate value, `coords[0]`; otherwise `0.0`. -/
def translationOf (cs : List ℚ) : ℚ :=
  if 0 < cs.length then cs.getD 0 0 else 0

/-- One entry of the NGFF `datasets` list (source lines 91-105): path
`f"{child.name}/{name}"` plus the scale/translation transform vectors derived
from the child's coordinates, one value per dimension in dimension order. -/
def datasetEntry (childName : String) (varName : String) (ds : Dataset) : NgffDataset :=
  { path := childName ++ "/" ++ varName
    coordinateTransformations :=
      { scale := ds.arr.coords.map scaleOf
        translation := ds.arr.coords.map translationOf } }

/-- Axis classification (source lines 109-117): the label `t` is `time`, `c`
is `channel`, anything else is `space`; a unit annotation is attached when
present. -/
def axisEntry (axis : String) (unit : Option String) : NgffAxis :=
  if axis = "t" then { name := "t", type := "time", unit := unit }
  else if axis = "c" then { name := "c", type := "channel", unit := unit }
  else { name := axis, type := "space", unit := unit }

/-- Assembly of the NGFF v0.4 metadata document (source lines 74-131): one
multiscale record per variable of `children[0].ds` (one variable in this
model), whose `datasets` list walks the children in order. With no children
the source would raise an `IndexError` at `self.children[0]`; that case is
unreachable for trees built by `to_multiscale`. -/
def buildNgffMetadata (t : MultiscaleSpatialImage) : NgffMetadata :=
  match t.children with
  | [] => { multiscales := [] }
  | c0 :: _ =>
    let varName := c0.2.varName
    let ngff_datasets := t.children.map (fun c => datasetEntry c.1 varName c.2)
    let image := c0.2.arr
    let axes := List.zipWith axisEntry image.dims image.units
    { multiscales :=
        [{ version := "0.4", name := varName, axes := axes, datasets := ngff_datasets }] }

/-- Per-variable encoding overrides, treated as an opaque payload by the
repository code. -/
abbrev ZarrEncoding := List (String × String)

/-- The call actually issued to the external store-writer
(`datatree.DataTree.to_zarr`): which arguments are passed, and the tree state
at the moment of the call. `none` in `mode`/`encoding` means the argument is
not supplied, so the external writer applies its own default. -/
structure ZarrWriteCall where
  store : String
  mode : Option String
  encoding : Option ZarrEncoding
  kwargs : List (String × String)
  tree : MultiscaleSpatialImage

/-- Model of `MultiscaleSpatialImage.to_zarr(store, mode, encoding, **kwargs)`
(source lines 46-134), as a state transformer returning the mutated tree and
the delegated write call. The NGFF metadata is assembled, assigned to
`self.ds.attrs` (line 132, replacing any prior attributes), and then the
parent writer is invoked as `super().to_zarr(store, **kwargs)` (line 134):
`store` and `kwargs` are forwarded, while the explicit `mode` and `encoding`
parameters are not among the forwarded arguments. -/
def MultiscaleSpatialImage.to_zarr (t : MultiscaleSpatialImage) (store : String)
    (mode : String) (encoding : Option ZarrEncoding) (kwargs : List (String × String)) :
    MultiscaleSpatialImage × ZarrWriteCall :=
  let ngff_metadata := buildNgffMetadata t
  let t' := { t with attrs := some ngff_metadata }
  (t', { store := store, mode := none, encoding := none, kwargs := kwargs, tree := t' })

/-! ### Concrete inputs used by the evaluation theorems and witnesses -/

/-- A one-dimensional image along `x` with extent 8 and values `0, 1, ..., 7`. -/
def exampleImage8 : DataArray :=
  { name := "img"
    dims := ["x"]
    sizes := [8]
    coords := [[0, 1, 2, 3, 4, 5, 6, 7]]
    units := [none]
    data := fun idx => ((idx.getD 0 0 : Nat) : ℚ) }

/-- Default child used with `List.getD` in closed evaluation statements. -/
def cdef : String × Dataset := ("", exampleImage8.to_dataset "")

/-- A four-dimensional image over `t`, `c`, `y`, `x`. -/
def exampleTCYX : DataArray :=
  { name := "img"
    dims := ["t", "c", "y", "x"]
    sizes := [3, 2, 8, 8]
    coords := [[0, 1, 2], [0, 1], [0, 1, 2, 3, 4, 5, 6, 7], [0, 1, 2, 3, 4, 5, 6, 7]]
    units := [none, none, none, none]
    data := fun _ => 0 }

/-- A two-dimensional image over `t`, `c` only (no spatial dimension). -/
def exampleTC : DataArray :=
  { name := "img"
    dims := ["t", "c"]
    sizes := [3, 2]
    coords := [[0, 1, 2], [0, 1]]
    units := [none, none]
    data := fun idx => ((idx.getD 0 0 : Nat) : ℚ) + 10 * ((idx.getD 1 0 : Nat) : ℚ) }

/-- A single-variable dataset with one dimension carrying coordinates `3, 5`. -/
def exDs : Dataset :=
  { varName := "img"
    arr :=
      { name := "img"
        dims := ["x"]
        sizes := [2]
        coords := [[3, 5]]
        units := [none]
        data := fun _ => 0 } }

/-- The tree built from `exampleImage8` with no scale factors. -/
def exampleTree : MultiscaleSpatialImage := to_multiscale exampleImage8 []

/-! ### Helper lemmas -/

/-- Looking up a key in an association list built by pairing every element of
`l` with the same value `f`. -/
theorem factorOf_map_const (l : List String) (f : Nat) (d : String) :
    factorOf (l.map (fun s => (s, f))) d = if d ∈ l then f else 1 := by
  induction l with
  | nil => simp [factorOf]
  | cons h t ih =>
    by_cases hd : h = d
    · subst hd
      simp [factorOf]
    · simp only [List.map_cons, factorOf, hd, if_false, ih, List.mem_cons]
      have : ¬d = h := fun hh => hd hh.symm
      simp [this]

/-- `factorOf` agrees with `List.lookup` with default `1`. -/
theorem factorOf_eq_lookup (m : List (String × Nat)) (d : String) :
    factorOf m d = (List.lookup d m).getD 1 := by
  induction m with
  | nil => simp [factorOf, List.lookup]
  | cons p rest ih =>
    obtain ⟨k, f⟩ := p
    by_cases hk : k = d
    · subst hk
      simp [factorOf, List.lookup]
    · have hdk : ¬d = k := fun hh => hk hh.symm
      have hbeq : (d == k) = false := by
        simp [hdk]
      simp [factorOf, List.lookup, hk, hbeq, ih]

/-- The factor resolved for a plain-integer scale factor: `f` on spatial
dimensions present in the image, `1` elsewhere. -/
theorem factorOf_resolveDim_uniform (a : DataArray) (f : Nat) (d : String) :
    factorOf (resolveDim a (ScaleFactor.uniform f)) d =
      if d ∈ _spatial_dims ∧ d ∈ a.dims then f else 1 := by
  show factorOf ((_spatial_dims.filter (fun d => decide (d ∈ a.dims))).map (fun d => (d, f))) d = _
  rw [factorOf_map_const]
  by_cases hm : d ∈ _spatial_dims.filter (fun d => decide (d ∈ a.dims))
  · rw [List.mem_filter] at hm
    simp only [decide_eq_true_eq] at hm
    simp [hm.1, hm.2, List.mem_filter, decide_eq_true_eq, hm]
  · rw [List.mem_filter] at hm
    simp only [decide_eq_true_eq, not_and] at hm
    rw [if_neg, if_neg]
    · intro h
      exact hm h.1 h.2
    · intro h
      rw [List.mem_filter] at h
      simp only [decide_eq_true_eq] at h
      exact hm h.1 h.2

/-- With no spatial dimension present, a plain-integer scale factor resolves
to the empty `dim` dict. -/
theorem resolveDim_uniform_no_spatial (a : DataArray) (f : Nat)
    (hsp : ∀ d ∈ a.dims, d ∉ _spatial_dims) :
    resolveDim a (ScaleFactor.uniform f) = [] := by
  show (_spatial_dims.filter (fun d => decide (d ∈ a.dims))).map (fun d => (d, f)) = _
  have hnil : _spatial_dims.filter (fun d => decide (d ∈ a.dims)) = [] := by
    rw [List.filter_eq_nil_iff]
    intro s hs
    simp only [decide_eq_true_eq]
    intro hmem
    exact hsp s hmem hs
  rw [hnil, List.map_nil]

/-- Extent along the `k`-th dimension after one coarsening step: the old
extent floor-divided by the factor resolved for that dimension. -/
theorem coarsenMean_sizes_getD (a : DataArray) (dm : List (String × Nat))
    (hlen : a.sizes.length = a.dims.length) (k : Nat) (hk : k < a.dims.length) :
    (a.coarsenMean dm).sizes.getD k 0 =
      a.sizes.getD k 0 / factorOf dm (a.dims.getD k "") := by
  have hk1 : k < a.sizes.length := by omega
  have hk2 : k < (a.dims.map (factorOf dm)).length := by
    simpa using hk
  have hkz : k < (List.zipWith (fun n f => n / f) a.sizes (a.dims.map (factorOf dm))).length := by
    rw [List.length_zipWith]
    simp only [List.length_map]
    omega
  show (List.zipWith (fun n f => n / f) a.sizes (a.dims.map (factorOf dm))).getD k 0 = _
  rw [List.getD_eq_getElem _ _ hkz, List.getD_eq_getElem _ _ hk1, List.getD_eq_getElem _ _ hk,
    List.getElem_zipWith, List.getElem_map]

/-- Floor-dividing each entry by a parallel list of ones is the identity. -/
theorem zipWith_div_ones (l1 l2 : List Nat) (h2 : ∀ x ∈ l2, x = 1)
    (h : l1.length ≤ l2.length) :
    List.zipWith (fun n f => n / f) l1 l2 = l1 := by
  induction l1 generalizing l2 with
  | nil => simp
  | cons x xs ih =>
    cases l2 with
    | nil => simp at h
    | cons y ys =>
      have hy : y = 1 := h2 y (List.mem_cons_self _ _)
      have hys : ∀ x ∈ ys, x = 1 := fun x hx => h2 x (List.mem_cons_of_mem _ hx)
      simp only [List.zipWith_cons_cons, hy, Nat.div_one]
      rw [ih ys hys (by simpa using h)]

/-- Taking each entry modulo a parallel list of ones yields zeros. -/
theorem zipWith_mod_ones (l1 l2 : List Nat) (h2 : ∀ x ∈ l2, x = 1)
    (h : l1.length ≤ l2.length) :
    List.zipWith (fun n f => n % f) l1 l2 = l1.map (fun _ => 0) := by
  induction l1 generalizing l2 with
  | nil => simp
  | cons x xs ih =>
    cases l2 with
    | nil => simp at h
    | cons y ys =>
      have hy : y = 1 := h2 y (List.mem_cons_self _ _)
      have hys : ∀ x ∈ ys, x = 1 := fun x hx => h2 x (List.mem_cons_of_mem _ hx)
      simp only [List.zipWith_cons_cons, hy, Nat.mod_one, List.map_cons]
      rw [ih ys hys (by simpa using h)]

/-- The offset vectors of an all-ones window specification: the single
all-zeros offset. -/
theorem offsets_ones (l : List Nat) (h : ∀ x ∈ l, x = 1) :
    offsets l = [l.map (fun _ => 0)] := by
  induction l with
  | nil => rfl
  | cons f fs ih =>
    have hf : f = 1 := h f (List.mem_cons_self _ _)
    have hfs : ∀ x ∈ fs, x = 1 := fun x hx => h x (List.mem_cons_of_mem _ hx)
    subst hf
    simp [offsets, ih hfs, List.range_succ]

/-- Reading through an all-ones window with zero excess and zero offset is the
identity on the output index vector. -/
theorem inIndex_ones (idx : List Nat) :
    ∀ (l1 l2 l3 : List Nat), (∀ x ∈ l1, x = 1) → (∀ x ∈ l2, x = 0) → (∀ x ∈ l3, x = 0) →
      idx.length ≤ l1.length → idx.length ≤ l2.length → idx.length ≤ l3.length →
      inIndex idx l1 l2 l3 = idx := by
  induction idx with
  | nil =>
    intro l1 l2 l3 _ _ _ _ _ _
    cases l1 <;> cases l2 <;> cases l3 <;> rfl
  | cons i is ih =>
    intro l1 l2 l3 h1 h2 h3 hl1 hl2 hl3
    cases l1 with
    | nil => simp at hl1
    | cons f fs =>
      cases l2 with
      | nil => simp at hl2
      | cons e es =>
        cases l3 with
        | nil => simp at hl3
        | cons o os =>
          have hf : f = 1 := h1 f (List.mem_cons_self _ _)
          have he : e = 0 := h2 e (List.mem_cons_self _ _)
          have ho : o = 0 := h3 o (List.mem_cons_self _ _)
          simp only [inIndex, hf, he, ho, Nat.mul_one, Nat.zero_add, Nat.add_zero]
          rw [ih fs es os (fun x hx => h1 x (List.mem_cons_of_mem _ hx))
            (fun x hx => h2 x (List.mem_cons_of_mem _ hx))
            (fun x hx => h3 x (List.mem_cons_of_mem _ hx))
            (by simpa using hl1) (by simpa using hl2) (by simpa using hl3)]

/-- Coarsening with the empty `dim` dict leaves every extent unchanged. -/
theorem coarsenMean_nil_sizes (a : DataArray) (hlen : a.sizes.length = a.dims.length) :
    (a.coarsenMean []).sizes = a.sizes := by
  show List.zipWith (fun n f => n / f) a.sizes (a.dims.map (factorOf [])) = a.sizes
  refine zipWith_div_ones _ _ ?_ ?_
  · intro x hx
    rw [List.mem_map] at hx
    obtain ⟨d, _, hd⟩ := hx
    simpa [factorOf] using hd.symm
  · simp [hlen]

/-- Coarsening with the empty `dim` dict leaves every data value unchanged
(at index vectors of the image's rank). -/
theorem coarsenMean_nil_data (a : DataArray) (hlen : a.sizes.length = a.dims.length)
    (idx : List Nat) (hidx : idx.length = a.dims.length) :
    (a.coarsenMean []).data idx = a.data idx := by
  have hones : ∀ x ∈ a.dims.map (factorOf []), x = 1 := by
    intro x hx
    rw [List.mem_map] at hx
    obtain ⟨d, _, hd⟩ := hx
    simpa [factorOf] using hd.symm
  have hexs : List.zipWith (fun n f => n % f) a.sizes (a.dims.map (factorOf [])) =
      a.sizes.map (fun _ => 0) :=
    zipWith_mod_ones _ _ hones (by simp [hlen])
  show ((offsets (a.dims.map (factorOf []))).map
      (fun os => a.data (inIndex idx (a.dims.map (factorOf []))
        (List.zipWith (fun n f => n % f) a.sizes (a.dims.map (factorOf []))) os))).sum /
      (((a.dims.map (factorOf [])).prod : ℚ)) = a.data idx
  rw [hexs, offsets_ones _ hones, List.prod_eq_one hones]
  have hin : inIndex idx (a.dims.map (factorOf [])) (a.sizes.map (fun _ => 0))
      ((a.dims.map (factorOf [])).map (fun _ => 0)) = idx := by
    refine inIndex_ones idx _ _ _ hones ?_ ?_ ?_ ?_ ?_
    · intro x hx
      rw [List.mem_map] at hx
      obtain ⟨d, _, hd⟩ := hx
      exact hd.symm
    · intro x hx
      rw [List.mem_map] at hx
      obtain ⟨d, _, hd⟩ := hx
      exact hd.symm
    · simp [hidx]
    · simp [hidx, hlen]
    · simp [hidx]
  simp only [List.map_cons, List.map_nil, List.sum_cons, List.sum_nil, add_zero]
  rw [hin]
  simp

/-- The second component of any entry of `l.enumFrom n` is an element of `l`. -/
theorem snd_mem_of_mem_enumFrom {α : Type} :
    ∀ (l : List α) (n : Nat) (p : Nat × α), p ∈ l.enumFrom n → p.2 ∈ l := by
  intro l
  induction l with
  | nil =>
    intro n p h
    simp [List.enumFrom] at h
  | cons x xs ih =>
    intro n p h
    rw [List.enumFrom, List.mem_cons] at h
    rcases h with h | h
    · subst h
      exact List.mem_cons_self _ _
    · exact List.mem_cons_of_mem _ (ih (n + 1) p h)

/-- The second component of any entry of `l.enum` is an element of `l`. -/
theorem snd_mem_of_mem_enum {α : Type} (l : List α) (p : Nat × α) (h : p ∈ l.enum) :
    p.2 ∈ l :=
  snd_mem_of_mem_enumFrom l 0 p h

/-! ### Claim theorems -/

/-- C4: for every image and every `scale_factors` sequence of length `N`,
`to_multiscale` returns a container with exactly `N + 1` resolution levels
(children), including level 0. -/
theorem to_multiscale_level_count (image : DataArray) (scale_factors : List ScaleFactor) :
    (to_multiscale image scale_factors).children.length = scale_factors.length + 1 := by
  simp [to_multiscale]

/-- C5: `to_multiscale(image, [])` returns a container with exactly one
level, holding the re-chunked input; since re-chunking is the identity on
values (`DataArray.chunk`), level 0 is value-identical to the input. -/
theorem to_multiscale_empty_scale_factors (image : DataArray) :
    (to_multiscale image []).children = [("0", (image.chunk).to_dataset image.name)] ∧
    image.chunk = image :=
  ⟨rfl, rfl⟩

/-- C10: `to_zarr` replaces the container root's attributes with the freshly
assembled multiscale metadata document, and the delegated store-writer call
receives the already-mutated tree: the attribute overwrite is sequenced before
the external write, so a failing write leaves the in-memory attributes already
overwritten. -/
theorem to_zarr_replaces_root_attrs_before_delegation (t : MultiscaleSpatialImage)
    (store mode : String) (enc : Option ZarrEncoding) (kw : List (String × String)) :
    (t.to_zarr store mode enc kw).1.attrs = some (buildNgffMetadata t) ∧
    (t.to_zarr store mode enc kw).2.tree = (t.to_zarr store mode enc kw).1 ∧
    (t.to_zarr store mode enc kw).2.tree.attrs = some (buildNgffMetadata t) :=
  ⟨rfl, rfl, rfl⟩

/-- C2 evaluation: the delegated store-writer call issued by
`MultiscaleSpatialImage.to_zarr` carries neither the caller's `mode` (`"w-"`
here) nor the caller's `encoding`: source line 134 forwards only `store` and
`**kwargs`, so both arguments are dropped and the external writer falls back
to its own defaults. -/
theorem to_zarr_mode_encoding_not_forwarded :
    (exampleTree.to_zarr "store" "w-" (some [("img", "int16")]) []).2.mode = none ∧
    (exampleTree.to_zarr "store" "w-" (some [("img", "int16")]) []).2.encoding = none ∧
    (exampleTree.to_zarr "store" "w-" (some [("img", "int16")]) []).2.mode ≠ some "w-" ∧
    (exampleTree.to_zarr "store" "w-" (some [("img", "int16")]) []).2.encoding ≠
      some [("img", "int16")] :=
  ⟨rfl, rfl, by decide, by decide⟩

/-- C3 evaluation: on the 1-D image of extent 8 with `scale_factors = [4, 2]`,
level 1 has extent 2, so the claimed recurrence demands extent
`floor(2 / 2) = 1` at level 2; the code instead produces extent
`floor(8 / 2) = 4`, because every transition coarsens the original image
(`current_input` is never updated, source lines 184-194). -/
theorem to_multiscale_extent_not_from_previous_level :
    ((to_multiscale exampleImage8 [ScaleFactor.uniform 4, ScaleFactor.uniform 2]).children.getD 1
        cdef).2.arr.sizes = [2] ∧
    ((to_multiscale exampleImage8 [ScaleFactor.uniform 4, ScaleFactor.uniform 2]).children.getD 2
        cdef).2.arr.sizes = [4] ∧
    (4 : Nat) ≠ 2 / 2 :=
  ⟨by decide, by decide, by decide⟩

set_option maxHeartbeats 1600000 in
/-- C1 evaluation: on the 1-D image `0, ..., 7` with `scale_factors = [2, 2]`,
the code's level 2 has extent 4 and value `1/2` at index 0 (it equals
`coarsen(image, 2)`, i.e. level 1 again), whereas one aggregation step applied
to level 1 — what the claim prescribes as level 2 — has extent 2 and value
`3/2` at index 0. Levels are therefore not cumulative: `current_input`
(source line 184) is initialized but never reassigned inside the loop. -/
theorem to_multiscale_levels_not_cumulative :
    ((to_multiscale exampleImage8 [ScaleFactor.uniform 2, ScaleFactor.uniform 2]).children.getD 2
        cdef).2.arr.sizes = [4] ∧
    ((to_multiscale exampleImage8 [ScaleFactor.uniform 2, ScaleFactor.uniform 2]).children.getD 2
        cdef).2.arr.data [0] = 1 / 2 ∧
    (((to_multiscale exampleImage8 [ScaleFactor.uniform 2, ScaleFactor.uniform 2]).children.getD 1
        cdef).2.arr.coarsenMean (resolveDim exampleImage8 (ScaleFactor.uniform 2))).sizes = [2] ∧
    (((to_multiscale exampleImage8 [ScaleFactor.uniform 2, ScaleFactor.uniform 2]).children.getD 1
        cdef).2.arr.coarsenMean (resolveDim exampleImage8 (ScaleFactor.uniform 2))).data [0]
      = 3 / 2 ∧
    ([4] : List Nat) ≠ [2] ∧ (1 / 2 : ℚ) ≠ 3 / 2 := by
  refine ⟨by decide, ?_, by decide, ?_, by decide, by norm_num⟩
  · simp [to_multiscale, DataArray.coarsenMean, DataArray.chunk, DataArray.to_dataset,
      resolveDim, factorOf, offsets, inIndex, exampleImage8, _spatial_dims, List.enum,
      List.enumFrom, List.range_succ]
  · rw [show ((to_multiscale exampleImage8 [ScaleFactor.uniform 2, ScaleFactor.uniform 2]).children.getD 1
        cdef).2.arr = exampleImage8.coarsenMean (resolveDim exampleImage8 (ScaleFactor.uniform 2))
      from rfl]
    rw [show resolveDim exampleImage8 (ScaleFactor.uniform 2) = [("x", 2)] from rfl]
    simp [DataArray.coarsenMean, factorOf, offsets, inIndex, exampleImage8, List.range_succ]
    norm_num

/-- C6: in the NGFF dataset entry derived for a level dataset, the scale value
for each dimension is the second coordinate value minus the first when the
dimension has at least two coordinate values and `1.0` when it has exactly
one, and the translation value is the first coordinate value when the
dimension has at least one coordinate value and `0.0` when it has none. -/
theorem ngff_transform_derivation (nm v : String) (ds : Dataset) (k : Nat)
    (hk : k < ds.arr.coords.length) :
    (1 < (ds.arr.coords.getD k []).length →
      (datasetEntry nm v ds).coordinateTransformations.scale.getD k 0 =
        (ds.arr.coords.getD k []).getD 1 0 - (ds.arr.coords.getD k []).getD 0 0) ∧
    ((ds.arr.coords.getD k []).length = 1 →
      (datasetEntry nm v ds).coordinateTransformations.scale.getD k 0 = 1) ∧
    (0 < (ds.arr.coords.getD k []).length →
      (datasetEntry nm v ds).coordinateTransformations.translation.getD k 0 =
        (ds.arr.coords.getD k []).getD 0 0) ∧
    ((ds.arr.coords.getD k []).length = 0 →
      (datasetEntry nm v ds).coordinateTransformations.translation.getD k 0 = 0) := by
  have hks : k < (ds.arr.coords.map scaleOf).length := by
    simpa using hk
  have hkt : k < (ds.arr.coords.map translationOf).length := by
    simpa using hk
  have hs : (datasetEntry nm v ds).coordinateTransformations.scale.getD k 0 =
      scaleOf (ds.arr.coords.getD k []) := by
    show (ds.arr.coords.map scaleOf).getD k 0 = _
    rw [List.getD_eq_getElem _ _ hks, List.getElem_map, List.getD_eq_getElem _ _ hk]
  have ht : (datasetEntry nm v ds).coordinateTransformations.translation.getD k 0 =
      translationOf (ds.arr.coords.getD k []) := by
    show (ds.arr.coords.map translationOf).getD k 0 = _
    rw [List.getD_eq_getElem _ _ hkt, List.getElem_map, List.getD_eq_getElem _ _ hk]
  refine ⟨fun h2 => ?_, fun h1 => ?_, fun h1 => ?_, fun h0 => ?_⟩
  · rw [hs, scaleOf, if_pos h2]
  · rw [hs, scaleOf, if_neg (by omega)]
  · rw [ht, translationOf, if_pos h1]
  · rw [ht, translationOf, if_neg (by omega)]

/-- Closed instance of `ngff_transform_derivation` at the dataset `exDs`
(coordinates `3, 5` along `x`) and dimension index `0`. -/
theorem ngff_transform_derivation_witness :
    0 < exDs.arr.coords.length ∧
    ((1 < (exDs.arr.coords.getD 0 []).length →
      (datasetEntry "0" "img" exDs).coordinateTransformations.scale.getD 0 0 =
        (exDs.arr.coords.getD 0 []).getD 1 0 - (exDs.arr.coords.getD 0 []).getD 0 0) ∧
    ((exDs.arr.coords.getD 0 []).length = 1 →
      (datasetEntry "0" "img" exDs).coordinateTransformations.scale.getD 0 0 = 1) ∧
    (0 < (exDs.arr.coords.getD 0 []).length →
      (datasetEntry "0" "img" exDs).coordinateTransformations.translation.getD 0 0 =
        (exDs.arr.coords.getD 0 []).getD 0 0) ∧
    ((exDs.arr.coords.getD 0 []).length = 0 →
      (datasetEntry "0" "img" exDs).coordinateTransformations.translation.getD 0 0 = 0)) :=
  ⟨by decide, ngff_transform_derivation "0" "img" exDs 0 (by decide)⟩

/-- C7: extent bookkeeping of one transition. A plain-integer factor `f`
divides (floor) the extent of every spatial dimension (`x`, `y`, `z`) present
in the image and leaves every other dimension's extent unchanged (`t` and `c`
are never downsampled); a per-axis mapping divides the extents of exactly the
named dimensions by their mapped factors, while unnamed dimensions pass
through with unchanged extent. -/
theorem scale_factor_axis_application (a : DataArray)
    (hlen : a.sizes.length = a.dims.length) (k : Nat) (hk : k < a.dims.length)
    (f : Nat) (m : List (String × Nat)) :
    ((a.coarsenMean (resolveDim a (ScaleFactor.uniform f))).sizes.getD k 0 =
      if a.dims.getD k "" ∈ _spatial_dims then a.sizes.getD k 0 / f
      else a.sizes.getD k 0) ∧
    ((a.coarsenMean (resolveDim a (ScaleFactor.perAxis m))).sizes.getD k 0 =
      match List.lookup (a.dims.getD k "") m with
      | some g => a.sizes.getD k 0 / g
      | none => a.sizes.getD k 0) := by
  have hd : a.dims.getD k "" ∈ a.dims := by
    rw [List.getD_eq_getElem _ _ hk]
    exact List.getElem_mem hk
  constructor
  · rw [coarsenMean_sizes_getD a _ hlen k hk, factorOf_resolveDim_uniform]
    by_cases hsd : a.dims.getD k "" ∈ _spatial_dims
    · rw [if_pos (And.intro hsd hd), if_pos hsd]
    · rw [if_neg (fun h => hsd h.1), if_neg hsd, Nat.div_one]
  · rw [coarsenMean_sizes_getD a _ hlen k hk]
    show a.sizes.getD k 0 / factorOf m (a.dims.getD k "") = _
    rw [factorOf_eq_lookup]
    cases hl : List.lookup (a.dims.getD k "") m with
    | none => simp
    | some g => simp

/-- Closed instance of `scale_factor_axis_application` at the `t, c, y, x`
image `exampleTCYX`, dimension index `0` (the time axis), factor `2` and
mapping `{"x": 2}`. -/
theorem scale_factor_axis_application_witness :
    exampleTCYX.sizes.length = exampleTCYX.dims.length ∧
    0 < exampleTCYX.dims.length ∧
    (((exampleTCYX.coarsenMean (resolveDim exampleTCYX (ScaleFactor.uniform 2))).sizes.getD 0 0 =
      if exampleTCYX.dims.getD 0 "" ∈ _spatial_dims then exampleTCYX.sizes.getD 0 0 / 2
      else exampleTCYX.sizes.getD 0 0) ∧
    ((exampleTCYX.coarsenMean (resolveDim exampleTCYX (ScaleFactor.perAxis [("x", 2)]))).sizes.getD 0 0 =
      match List.lookup (exampleTCYX.dims.getD 0 "") [("x", 2)] with
      | some g => exampleTCYX.sizes.getD 0 0 / g
      | none => exampleTCYX.sizes.getD 0 0)) :=
  ⟨rfl, by decide, scale_factor_axis_application exampleTCYX rfl 0 (by decide) 2 [("x", 2)]⟩

/-- C8: the multiscale metadata attached to the root attributes at persistence
time contains exactly one record, whose `datasets` list has one entry per
resolution level, in increasing level order, with paths
`"0/<variable-name>"` through `"N/<variable-name>"`. -/
theorem ngff_metadata_dataset_paths (image : DataArray) (sfs : List ScaleFactor)
    (store mode : String) (enc : Option ZarrEncoding) (kw : List (String × String)) :
    (((to_multiscale image sfs).to_zarr store mode enc kw).1.attrs).map
        (fun md => md.multiscales.map (fun ms => ms.datasets.map (fun d => d.path)))
      = some [(List.range (sfs.length + 1)).map (fun k => toString k ++ "/" ++ image.name)] := by
  show some ((buildNgffMetadata (to_multiscale image sfs)).multiscales.map
      (fun ms => ms.datasets.map (fun d => d.path))) = _
  simp only [to_multiscale, buildNgffMetadata, datasetEntry, DataArray.chunk,
    DataArray.to_dataset, List.map_cons, List.map_map, Option.some.injEq]
  rw [List.range_succ_eq_map, List.map_cons, ← List.enum_map_fst sfs, List.map_map,
    List.map_map]
  rfl

/-- C9: for an image whose dimension labels include none of `x`, `y`, `z`,
`to_multiscale` with any sequence of plain-integer scale factors leaves every
level's extents and data values equal to the input's: the resolved per-
transition `dim` dict is empty, so block-mean aggregation is the identity on
values for every transition. -/
theorem to_multiscale_no_spatial_dims_identity (a : DataArray)
    (hlen : a.sizes.length = a.dims.length)
    (hsp : ∀ d ∈ a.dims, d ∉ _spatial_dims)
    (sfs : List ScaleFactor) (hsf : ∀ s ∈ sfs, ∃ g, s = ScaleFactor.uniform g) :
    ∀ c ∈ (to_multiscale a sfs).children,
      c.2.arr.sizes = a.sizes ∧
      ∀ idx : List Nat, idx.length = a.dims.length → c.2.arr.data idx = a.data idx := by
  intro c hc
  simp only [to_multiscale, List.mem_cons, List.mem_map] at hc
  rcases hc with hc | ⟨p, hp, hc⟩
  · subst hc
    exact ⟨rfl, fun idx _ => rfl⟩
  · obtain ⟨g, hg⟩ := hsf p.2 (snd_mem_of_mem_enum sfs p hp)
    have harr : c.2.arr = a.coarsenMean (resolveDim a p.2) := by
      rw [← hc]
      rfl
    rw [harr, hg, resolveDim_uniform_no_spatial a g hsp]
    exact ⟨coarsenMean_nil_sizes a hlen, fun idx hidx => coarsenMean_nil_data a hlen idx hidx⟩

/-- Closed instance of `to_multiscale_no_spatial_dims_identity` at the
spatial-dimension-free image `exampleTC` with `scale_factors = [2]`: level 1
keeps the input's extents and its value at index `(1, 0)`. -/
theorem to_multiscale_no_spatial_dims_identity_witness :
    ((to_multiscale exampleTC [ScaleFactor.uniform 2]).children.getD 1 cdef).2.arr.sizes
        = exampleTC.sizes ∧
    ((to_multiscale exampleTC [ScaleFactor.uniform 2]).children.getD 1 cdef).2.arr.data [1, 0]
        = exampleTC.data [1, 0] := by
  have h := to_multiscale_no_spatial_dims_identity exampleTC rfl (by decide)
    [ScaleFactor.uniform 2] (fun s hs => ⟨2, by simpa using hs⟩)
    ((to_multiscale exampleTC [ScaleFactor.uniform 2]).children.getD 1 cdef)
    (List.Mem.tail _ (List.Mem.head _))
  exact ⟨h.1, h.2 [1, 0] (by decide)⟩
